import Mathlib

/-!
Verification of the great-circle route computation and antimeridian-safe
path segmentation of the FlightMap module (`generateArc` and
`handleAntimeridian`).

The JavaScript source operates on `[lat, lng]` pairs of numbers (degrees).
We embed points as a structure `GeoPoint` with real-valued coordinates and
translate the two core functions:

* `handleAntimeridian` walks the point list, accumulating a current segment;
  it closes the current segment whenever the absolute longitude difference
  to the next point exceeds 180, and finally emits the (non-empty) trailing
  segment.
* `generateArc` performs spherical linear interpolation: for each step
  `i = 0..numPoints` it computes the haversine central angle `d`, takes the
  degenerate branch when `d = 0` (emitting `start` unchanged), and otherwise
  interpolates on the unit sphere and converts back with `atan2`.

`Math.atan2` is embedded as `Complex.arg ⟨x, y⟩`, which has the same range
`(-π, π]` and the same value `0` at the origin. Division in the source is
JavaScript's total float division (it never throws); the embedding uses
Lean's total real division. Floating-point "within tolerance" equality of
geographic points is formalized as exact equality of the unit-sphere
vectors the points denote (`degToVec`), which is exact equality of the
geographic locations.
-/

open Real

noncomputable section

/-- A geographic point in degrees, as the `[lat, lng]` pairs of the source. -/
structure GeoPoint where
  lat : ℝ
  lng : ℝ

/-- Well-formed geographic coordinates: latitude in `[-90, 90]` and
longitude in `[-180, 180]` degrees. -/
def ValidGeo (p : GeoPoint) : Prop :=
  -90 ≤ p.lat ∧ p.lat ≤ 90 ∧ -180 ≤ p.lng ∧ p.lng ≤ 180

/-! ## Antimeridian segmentation (`handleAntimeridian`, source lines 124–149)

The JS loop pushes the current point into `currentSegment`; if a next point
exists and `Math.abs(point[1] - nextPoint[1]) > 180` it emits
`currentSegment` and starts a new one; after the loop the remaining segment
is emitted when non-empty.  `segGo current rest` is that loop with
accumulator `current`. -/

def segGo : List GeoPoint → List GeoPoint → List (List GeoPoint)
  | current, [] => if current.isEmpty then [] else [current]
  | current, [p] => [current ++ [p]]
  | current, p :: q :: rest =>
      if |p.lng - q.lng| > 180 then
        (current ++ [p]) :: segGo [] (q :: rest)
      else
        segGo (current ++ [p]) (q :: rest)

/-- `handleAntimeridian` of the source: split a point list into polyline
segments at antimeridian crossings. -/
def handleAntimeridian (points : List GeoPoint) : List (List GeoPoint) :=
  segGo [] points

/-- Two consecutive points do not jump across the antimeridian. -/
def NoJump (p q : GeoPoint) : Prop := |p.lng - q.lng| ≤ 180

/-! ## Great-circle arc generation (`generateArc`, source lines 82–117) -/

/-- `Math.atan2 y x`, embedded as the argument of the complex number
`x + y·i`; both have range `(-π, π]` and value `0` at the origin. -/
def atan2 (y x : ℝ) : ℝ := Complex.arg ⟨x, y⟩

/-- Degree-to-radian conversion (`deg * Math.PI / 180`). -/
def rad (x : ℝ) : ℝ := x * π / 180

/-- The haversine term under the square root in the central-angle formula
(source lines 94–95). -/
def hav (s e : GeoPoint) : ℝ :=
  sin ((rad s.lat - rad e.lat) / 2) ^ 2 +
  cos (rad s.lat) * cos (rad e.lat) * sin ((rad s.lng - rad e.lng) / 2) ^ 2

/-- The haversine central angle `d` between the two endpoints
(source lines 93–96). -/
def arcD (s e : GeoPoint) : ℝ :=
  2 * arcsin (Real.sqrt (
    sin ((rad s.lat - rad e.lat) / 2) ^ 2 +
    cos (rad s.lat) * cos (rad e.lat) * sin ((rad s.lng - rad e.lng) / 2) ^ 2))

/-- The interpolated Cartesian point at fraction `f` along the arc
(source lines 103–108): weights `A`, `B` over the endpoint unit vectors. -/
def arcVec (s e : GeoPoint) (f : ℝ) : ℝ × ℝ × ℝ :=
  let d := arcD s e
  let A := sin ((1 - f) * d) / sin d
  let B := sin (f * d) / sin d
  (A * cos (rad s.lat) * cos (rad s.lng) + B * cos (rad e.lat) * cos (rad e.lng),
   A * cos (rad s.lat) * sin (rad s.lng) + B * cos (rad e.lat) * sin (rad e.lng),
   A * sin (rad s.lat) + B * sin (rad e.lat))

/-- Conversion of an interpolated Cartesian point back to degrees
(source lines 110–113). -/
def vecToGeo (v : ℝ × ℝ × ℝ) : GeoPoint :=
  ⟨atan2 v.2.2 (Real.sqrt (v.1 * v.1 + v.2.1 * v.2.1)) * 180 / π,
   atan2 v.2.1 v.1 * 180 / π⟩

/-- One loop iteration of `generateArc` at step `i` of `n`: the degenerate
`d = 0` branch emits `start` unchanged (lines 98–101), otherwise the
interpolated point is emitted. -/
def arcPoint (s e : GeoPoint) (n i : ℕ) : GeoPoint :=
  if arcD s e = 0 then ⟨s.lat, s.lng⟩
  else vecToGeo (arcVec s e ((i : ℝ) / (n : ℝ)))

/-- `generateArc` of the source: the points pushed for `i = 0, …, numPoints`. -/
def generateArc (s e : GeoPoint) (numPoints : ℕ) : List GeoPoint :=
  (List.range (numPoints + 1)).map (arcPoint s e numPoints)

/-! ## Spherical geometry vocabulary used to state the arc claims -/

/-- The unit-sphere vector denoted by a geographic point given in degrees. -/
def degToVec (p : GeoPoint) : ℝ × ℝ × ℝ :=
  (cos (rad p.lat) * cos (rad p.lng),
   cos (rad p.lat) * sin (rad p.lng),
   sin (rad p.lat))

/-- Euclidean dot product on ℝ³. -/
def dot3 (u v : ℝ × ℝ × ℝ) : ℝ := u.1 * v.1 + u.2.1 * v.2.1 + u.2.2 * v.2.2

/-- Negation on ℝ³ (the antipode of a unit vector). -/
def neg3 (u : ℝ × ℝ × ℝ) : ℝ × ℝ × ℝ := (-u.1, -u.2.1, -u.2.2)

/-- Spherical (great-circle) distance between unit vectors. -/
def sphericalDist (u v : ℝ × ℝ × ℝ) : ℝ := arccos (dot3 u v)

/-- A point `q` of the unit sphere lies on the minor great-circle arc
between `u` and `v`: its spherical distances to the two endpoints add up
exactly to their spherical distance. -/
def OnMinorArc (u v q : ℝ × ℝ × ℝ) : Prop :=
  sphericalDist u q + sphericalDist q v = sphericalDist u v

/-! ## Segmentation lemmas and claims C1, C2, C7 -/

/-- Flattening `segGo current rest` recovers `current ++ rest`. -/
theorem segGo_join (rest : List GeoPoint) :
    ∀ current, (segGo current rest).flatten = current ++ rest := by
  induction rest with
  | nil =>
      intro current
      by_cases h : current.isEmpty
      · rw [List.isEmpty_iff] at h
        simp [segGo, h]
      · simp [segGo, h]
  | cons p rest ih =>
      intro current
      match rest with
      | [] => simp [segGo]
      | q :: rest' =>
          rw [segGo]
          split
          · simp [ih]
          · simp [ih]

/-- Every segment produced by `segGo` is non-empty and free of antimeridian
jumps, provided the accumulated segment is jump-free and connects without a
jump to the head of the remaining list. -/
theorem segGo_forall (rest : List GeoPoint) :
    ∀ current, List.Chain' NoJump current →
      (∀ a ∈ current.getLast?, ∀ b ∈ rest.head?, NoJump a b) →
      (segGo current rest).Forall
        (fun seg => seg ≠ [] ∧ List.Chain' NoJump seg) := by
  induction rest with
  | nil =>
      intro current hchain _
      by_cases h : current.isEmpty
      · simp [segGo, h, List.Forall]
      · rw [List.isEmpty_iff] at h
        simp [segGo, List.isEmpty_iff, h, List.Forall, hchain]
  | cons p rest ih =>
      intro current hchain hlink
      have hcp : List.Chain' NoJump (current ++ [p]) := by
        rw [List.chain'_append]
        refine ⟨hchain, List.chain'_singleton p, ?_⟩
        intro a ha b hb
        simp only [List.head?_cons, Option.mem_def, Option.some.injEq] at hb
        subst hb
        exact hlink a ha p (by simp)
      match rest with
      | [] =>
          simp [segGo, List.Forall, hcp]
      | q :: rest' =>
          rw [segGo]
          split
          · rw [List.forall_cons]
            refine ⟨⟨by simp, hcp⟩, ?_⟩
            exact ih [] (List.chain'_nil) (by simp)
          · refine ih (current ++ [p]) hcp ?_
            intro a ha b hb
            simp only [List.getLast?_concat, Option.mem_def, Option.some.injEq] at ha
            simp only [List.head?_cons, Option.mem_def, Option.some.injEq] at hb
            subst ha; subst hb
            exact le_of_not_lt (by assumption)

/-- When no consecutive pair of the remaining list jumps the antimeridian,
`segGo` produces the single segment `current ++ rest`. -/
theorem segGo_nojump (rest : List GeoPoint) :
    ∀ current, List.Chain' NoJump rest → current ++ rest ≠ [] →
      segGo current rest = [current ++ rest] := by
  induction rest with
  | nil =>
      intro current _ hne
      rw [List.append_nil] at hne
      simp [segGo, List.isEmpty_iff, hne]
  | cons p rest ih =>
      intro current hchain _
      match rest with
      | [] => simp [segGo]
      | q :: rest' =>
          rw [segGo]
          rw [List.chain'_cons] at hchain
          rw [if_neg (not_lt.mpr hchain.1)]
          rw [ih (current ++ [p]) hchain.2 (by simp)]
          simp

/-- C1: concatenating, in order, the segments returned by
`handleAntimeridian` yields exactly the input sequence: no point dropped,
none duplicated, none reordered (proved for every input sequence, in
particular every non-empty one). -/
theorem claim_C1_segment_concatenation (points : List GeoPoint) :
    (handleAntimeridian points).flatten = points := by
  rw [handleAntimeridian, segGo_join]
  rfl

/-- C2: every segment returned by `handleAntimeridian` is non-empty and
contains no adjacent pair of points whose absolute longitude difference
exceeds 180. -/
theorem claim_C2_segment_invariant (points : List GeoPoint) :
    (handleAntimeridian points).Forall
      (fun seg => seg ≠ [] ∧ List.Chain' NoJump seg) := by
  exact segGo_forall points [] List.chain'_nil (by simp)

/-- C7: for a non-empty input in which no consecutive pair of points has an
absolute longitude difference exceeding 180°, `handleAntimeridian` returns
exactly one segment. -/
theorem claim_C7_single_segment (points : List GeoPoint)
    (hne : points ≠ []) (hchain : List.Chain' NoJump points) :
    (handleAntimeridian points).length = 1 := by
  rw [handleAntimeridian, segGo_nojump points [] hchain (by simpa using hne)]
  rfl

/-- Witness for C7 at the concrete two-point input
`[(0°, 0°), (0°, 10°)]`, whose single longitude step is 10° ≤ 180°. -/
theorem claim_C7_single_segment_witness :
    ([⟨0, 0⟩, ⟨0, 10⟩] : List GeoPoint) ≠ [] ∧
      List.Chain' NoJump [(⟨0, 0⟩ : GeoPoint), ⟨0, 10⟩] ∧
      (handleAntimeridian [⟨0, 0⟩, ⟨0, 10⟩]).length = 1 := by
  have h1 : ([⟨0, 0⟩, ⟨0, 10⟩] : List GeoPoint) ≠ [] := by simp
  have h2 : List.Chain' NoJump [(⟨0, 0⟩ : GeoPoint), ⟨0, 10⟩] := by
    simp only [List.chain'_cons, List.chain'_singleton, and_true, NoJump]
    norm_num [abs_le]
  exact ⟨h1, h2, claim_C7_single_segment _ h1 h2⟩

/-! ## Arc claims with elementary proofs: C5, C6, C9, C10 -/

/-- With coinciding endpoints the haversine angle is exactly `0`. -/
theorem arcD_self (s : GeoPoint) : arcD s s = 0 := by
  simp [arcD]

/-- C5: with coinciding endpoints the central angle is `0`, the degenerate
branch is taken for every step (so no division by `sin d` is reached), and
the result is `n + 1` copies of `start`; proved for every `n`, in
particular every `n ≥ 1`. -/
theorem claim_C5_degenerate_identity (s : GeoPoint) (n : ℕ) :
    generateArc s s n = List.replicate (n + 1) s := by
  rw [List.eq_replicate_iff]
  constructor
  · simp [generateArc]
  · intro b hb
    simp only [generateArc, List.mem_map] at hb
    obtain ⟨i, _, rfl⟩ := hb
    simp [arcPoint, arcD_self]

/-- C6: the returned path has exactly `n + 1` points, for every valid pair
of endpoints and every `n ≥ 1`. -/
theorem claim_C6_sample_count (s e : GeoPoint) (n : ℕ)
    (hs : ValidGeo s) (he : ValidGeo e) (hn : 1 ≤ n) :
    (generateArc s e n).length = n + 1 := by
  simp [generateArc]

/-- Witness for C6 at Tokyo → Los Angeles with 100 samples. -/
theorem claim_C6_sample_count_witness :
    ValidGeo ⟨35, 135⟩ ∧ ValidGeo ⟨33, -117⟩ ∧ 1 ≤ 100 ∧
      (generateArc ⟨35, 135⟩ ⟨33, -117⟩ 100).length = 101 := by
  have hs : ValidGeo (⟨35, 135⟩ : GeoPoint) := by norm_num [ValidGeo]
  have he : ValidGeo (⟨33, -117⟩ : GeoPoint) := by norm_num [ValidGeo]
  exact ⟨hs, he, by norm_num,
    claim_C6_sample_count ⟨35, 135⟩ ⟨33, -117⟩ 100 hs he (by norm_num)⟩

/-- C9: `generateArc` is total: for every pair of endpoints — including
exactly antipodal ones, where `sin d = 0` and the division is by zero —
and every sample count it still returns the full list of `n + 1` points.
No error value or exception exists in the embedding, matching JavaScript's
total float division (which never throws). -/
theorem claim_C9_totality (s e : GeoPoint) (n : ℕ) :
    (generateArc s e n).length = n + 1 := by
  simp [generateArc]

/-- Every point produced by the `atan2`-based conversion has latitude in
`[-90, 90]` (its `atan2` second argument is a square root, hence
non-negative) and longitude in `(-180, 180] ⊆ [-180, 180]`. -/
theorem vecToGeo_valid (v : ℝ × ℝ × ℝ) : ValidGeo (vecToGeo v) := by
  have hpi := Real.pi_pos
  constructor
  · -- latitude lower bound
    have hre : (0 : ℝ) ≤ (Complex.mk (Real.sqrt (v.1 * v.1 + v.2.1 * v.2.1)) v.2.2).re :=
      Real.sqrt_nonneg _
    have harg := Complex.abs_arg_le_pi_div_two_iff.mpr hre
    rw [abs_le] at harg
    show -90 ≤ atan2 v.2.2 (Real.sqrt (v.1 * v.1 + v.2.1 * v.2.1)) * 180 / π
    rw [le_div_iff₀ hpi, atan2]
    nlinarith [harg.1]
  refine ⟨?_, ?_, ?_⟩
  · -- latitude upper bound
    have hre : (0 : ℝ) ≤ (Complex.mk (Real.sqrt (v.1 * v.1 + v.2.1 * v.2.1)) v.2.2).re :=
      Real.sqrt_nonneg _
    have harg := Complex.abs_arg_le_pi_div_two_iff.mpr hre
    rw [abs_le] at harg
    show atan2 v.2.2 (Real.sqrt (v.1 * v.1 + v.2.1 * v.2.1)) * 180 / π ≤ 90
    rw [div_le_iff₀ hpi, atan2]
    nlinarith [harg.2]
  · -- longitude lower bound
    have harg := Complex.neg_pi_lt_arg (Complex.mk v.1 v.2.1)
    show -180 ≤ atan2 v.2.1 v.1 * 180 / π
    rw [le_div_iff₀ hpi, atan2]
    nlinarith
  · -- longitude upper bound
    have harg := Complex.arg_le_pi (Complex.mk v.1 v.2.1)
    show atan2 v.2.1 v.1 * 180 / π ≤ 180
    rw [div_le_iff₀ hpi, atan2]
    nlinarith

/-- C10: every point emitted by `generateArc` for valid endpoints is itself
a valid `GeoPoint`: latitude in `[-90, 90]`, longitude in `[-180, 180]`;
in the degenerate branch the emitted point is the valid input `start`. -/
theorem claim_C10_output_valid (s e : GeoPoint) (n : ℕ)
    (hs : ValidGeo s) (he : ValidGeo e) :
    ∀ q ∈ generateArc s e n, ValidGeo q := by
  intro q hq
  simp only [generateArc, List.mem_map] at hq
  obtain ⟨i, _, rfl⟩ := hq
  rw [arcPoint]
  split
  · exact hs
  · exact vecToGeo_valid _

/-- Witness for C10 at Tokyo → Los Angeles with 100 samples. -/
theorem claim_C10_output_valid_witness :
    ValidGeo ⟨35, 135⟩ ∧ ValidGeo ⟨33, -117⟩ ∧
      ∀ q ∈ generateArc ⟨35, 135⟩ ⟨33, -117⟩ 100, ValidGeo q := by
  have hs : ValidGeo (⟨35, 135⟩ : GeoPoint) := by norm_num [ValidGeo]
  have he : ValidGeo (⟨33, -117⟩ : GeoPoint) := by norm_num [ValidGeo]
  exact ⟨hs, he, claim_C10_output_valid ⟨35, 135⟩ ⟨33, -117⟩ 100 hs he⟩

/-! ## Spherical trigonometry toolbox for claims C3, C4, C8 -/

/-- Half-angle identity for the squared sine. -/
theorem sin_sq_half_eq (x : ℝ) : sin (x / 2) ^ 2 = (1 - cos x) / 2 := by
  have h1 := sin_sq_add_cos_sq (x / 2)
  have h2 := cos_two_mul (x / 2)
  rw [show 2 * (x / 2) = x by ring] at h2
  linarith

/-- The vector denoted by a geographic point is a unit vector. -/
theorem dot3_degToVec_self (p : GeoPoint) : dot3 (degToVec p) (degToVec p) = 1 := by
  have h1 := sin_sq_add_cos_sq (rad p.lat)
  have h2 := sin_sq_add_cos_sq (rad p.lng)
  simp only [dot3, degToVec]
  linear_combination (cos (rad p.lat)) ^ 2 * h2 + h1

/-- A valid latitude converts to a radian angle at least `-π/2`. -/
theorem rad_lat_lower (p : GeoPoint) (hp : ValidGeo p) : -(π / 2) ≤ rad p.lat := by
  rw [rad]
  nlinarith [mul_nonneg (by linarith [hp.1] : (0 : ℝ) ≤ p.lat + 90) (le_of_lt pi_pos)]

/-- A valid latitude converts to a radian angle at most `π/2`. -/
theorem rad_lat_upper (p : GeoPoint) (hp : ValidGeo p) : rad p.lat ≤ π / 2 := by
  rw [rad]
  nlinarith [mul_nonneg (by linarith [hp.2.1] : (0 : ℝ) ≤ 90 - p.lat) (le_of_lt pi_pos)]

/-- The cosine of a valid latitude (in radians) is non-negative. -/
theorem cos_rad_lat_nonneg (p : GeoPoint) (hp : ValidGeo p) : 0 ≤ cos (rad p.lat) :=
  Real.cos_nonneg_of_mem_Icc ⟨rad_lat_lower p hp, rad_lat_upper p hp⟩

/-- `arcD` written through the named haversine term. -/
theorem arcD_eq_hav (s e : GeoPoint) : arcD s e = 2 * arcsin (Real.sqrt (hav s e)) := rfl

/-- The central angle is non-negative (for every input). -/
theorem arcD_nonneg (s e : GeoPoint) : 0 ≤ arcD s e := by
  rw [arcD_eq_hav]
  have h := Real.arcsin_nonneg.mpr (Real.sqrt_nonneg (hav s e))
  linarith

/-- The central angle is at most `π` (for every input). -/
theorem arcD_le_pi (s e : GeoPoint) : arcD s e ≤ π := by
  rw [arcD_eq_hav]
  have h := Real.arcsin_le_pi_div_two (Real.sqrt (hav s e))
  linarith

/-- The haversine term is non-negative for valid endpoints. -/
theorem hav_nonneg (s e : GeoPoint) (hs : ValidGeo s) (he : ValidGeo e) :
    0 ≤ hav s e :=
  add_nonneg (sq_nonneg _)
    (mul_nonneg (mul_nonneg (cos_rad_lat_nonneg s hs) (cos_rad_lat_nonneg e he))
      (sq_nonneg _))

/-- The haversine term is at most `1` for valid endpoints. -/
theorem hav_le_one (s e : GeoPoint) (hs : ValidGeo s) (he : ValidGeo e) :
    hav s e ≤ 1 := by
  have hca := cos_rad_lat_nonneg s hs
  have hcb := cos_rad_lat_nonneg e he
  have h1 := sin_sq_half_eq (rad s.lat - rad e.lat)
  rw [Real.cos_sub] at h1
  have h2 : sin ((rad s.lng - rad e.lng) / 2) ^ 2 ≤ 1 := sin_sq_le_one _
  have h4 := cos_le_one (rad s.lat + rad e.lat)
  rw [Real.cos_add] at h4
  have h5 : 0 ≤ cos (rad s.lat) * cos (rad e.lat) *
      (1 - sin ((rad s.lng - rad e.lng) / 2) ^ 2) :=
    mul_nonneg (mul_nonneg hca hcb) (by linarith)
  rw [hav, h1]
  nlinarith [h5]

/-- The cosine of the haversine central angle equals the dot product of the
endpoint unit vectors (the spherical law of cosines). -/
theorem cos_arcD (s e : GeoPoint) (hs : ValidGeo s) (he : ValidGeo e) :
    cos (arcD s e) = dot3 (degToVec s) (degToVec e) := by
  have h0 := hav_nonneg s e hs he
  have h1 := hav_le_one s e hs he
  have hs1 : Real.sqrt (hav s e) ≤ 1 := sqrt_le_one.mpr h1
  have hs0 := Real.sqrt_nonneg (hav s e)
  have hsin : sin (arcsin (Real.sqrt (hav s e))) = Real.sqrt (hav s e) :=
    sin_arcsin (by linarith) hs1
  have hsq : Real.sqrt (hav s e) ^ 2 = hav s e := Real.sq_sqrt h0
  have hkey : cos (arcD s e) = 1 - 2 * hav s e := by
    rw [arcD_eq_hav]
    have hc2 := cos_two_mul (arcsin (Real.sqrt (hav s e)))
    have hp2 := sin_sq_add_cos_sq (arcsin (Real.sqrt (hav s e)))
    have hsin2 : sin (arcsin (Real.sqrt (hav s e))) ^ 2 = hav s e := by
      rw [hsin, hsq]
    linarith
  rw [hkey]
  simp only [hav, dot3, degToVec]
  rw [sin_sq_half_eq, sin_sq_half_eq, Real.cos_sub, Real.cos_sub]
  ring

/-- Dot product against an `A·u + B·v` combination, on the left. -/
theorem dot3_comb_left (u v : ℝ × ℝ × ℝ) (A B : ℝ) :
    dot3 u (A * u.1 + B * v.1, A * u.2.1 + B * v.2.1, A * u.2.2 + B * v.2.2) =
      A * dot3 u u + B * dot3 u v := by
  simp only [dot3]
  ring

/-- Dot product against an `A·u + B·v` combination, on the right. -/
theorem dot3_comb_right (u v : ℝ × ℝ × ℝ) (A B : ℝ) :
    dot3 (A * u.1 + B * v.1, A * u.2.1 + B * v.2.1, A * u.2.2 + B * v.2.2) v =
      A * dot3 u v + B * dot3 v v := by
  simp only [dot3]
  ring

/-- Squared norm of an `A·u + B·v` combination. -/
theorem dot3_comb_self (u v : ℝ × ℝ × ℝ) (A B : ℝ) :
    dot3 (A * u.1 + B * v.1, A * u.2.1 + B * v.2.1, A * u.2.2 + B * v.2.2)
         (A * u.1 + B * v.1, A * u.2.1 + B * v.2.1, A * u.2.2 + B * v.2.2) =
      A ^ 2 * dot3 u u + 2 * A * B * dot3 u v + B ^ 2 * dot3 v v := by
  simp only [dot3]
  ring

/-- Two unit vectors with dot product `1` coincide. -/
theorem eq_of_dot3_eq_one {u v : ℝ × ℝ × ℝ} (hu : dot3 u u = 1)
    (hv : dot3 v v = 1) (huv : dot3 u v = 1) : u = v := by
  obtain ⟨u1, u2, u3⟩ := u
  obtain ⟨v1, v2, v3⟩ := v
  simp only [dot3] at hu hv huv
  have hsum : (u1 - v1) ^ 2 + (u2 - v2) ^ 2 + (u3 - v3) ^ 2 = 0 := by
    linear_combination hu + hv - 2 * huv
  have e1 : u1 = v1 := by
    have h := sq_eq_zero_iff.mp
      (by nlinarith [sq_nonneg (u2 - v2), sq_nonneg (u3 - v3), sq_nonneg (u1 - v1)] :
        (u1 - v1) ^ 2 = 0)
    linarith
  have e2 : u2 = v2 := by
    have h := sq_eq_zero_iff.mp
      (by nlinarith [sq_nonneg (u1 - v1), sq_nonneg (u3 - v3), sq_nonneg (u2 - v2)] :
        (u2 - v2) ^ 2 = 0)
    linarith
  have e3 : u3 = v3 := by
    have h := sq_eq_zero_iff.mp
      (by nlinarith [sq_nonneg (u1 - v1), sq_nonneg (u2 - v2), sq_nonneg (u3 - v3)] :
        (u3 - v3) ^ 2 = 0)
    linarith
  simp [Prod.mk.injEq, e1, e2, e3]

/-- Two unit vectors with dot product `-1` are antipodal. -/
theorem neg_of_dot3_eq_neg_one {u v : ℝ × ℝ × ℝ} (hu : dot3 u u = 1)
    (hv : dot3 v v = 1) (huv : dot3 u v = -1) : v = neg3 u := by
  obtain ⟨u1, u2, u3⟩ := u
  obtain ⟨v1, v2, v3⟩ := v
  simp only [dot3] at hu hv huv
  have hsum : (u1 + v1) ^ 2 + (u2 + v2) ^ 2 + (u3 + v3) ^ 2 = 0 := by
    linear_combination hu + hv + 2 * huv
  have e1 : v1 = -u1 := by
    have h := sq_eq_zero_iff.mp
      (by nlinarith [sq_nonneg (u2 + v2), sq_nonneg (u3 + v3), sq_nonneg (u1 + v1)] :
        (u1 + v1) ^ 2 = 0)
    linarith
  have e2 : v2 = -u2 := by
    have h := sq_eq_zero_iff.mp
      (by nlinarith [sq_nonneg (u1 + v1), sq_nonneg (u3 + v3), sq_nonneg (u2 + v2)] :
        (u2 + v2) ^ 2 = 0)
    linarith
  have e3 : v3 = -u3 := by
    have h := sq_eq_zero_iff.mp
      (by nlinarith [sq_nonneg (u1 + v1), sq_nonneg (u2 + v2), sq_nonneg (u3 + v3)] :
        (u3 + v3) ^ 2 = 0)
    linarith
  simp [neg3, Prod.mk.injEq, e1, e2, e3]

/-- Distinct endpoint vectors force a non-zero central angle. -/
theorem arcD_ne_zero (s e : GeoPoint) (hs : ValidGeo s) (he : ValidGeo e)
    (hne : degToVec s ≠ degToVec e) : arcD s e ≠ 0 := by
  intro h
  apply hne
  apply eq_of_dot3_eq_one (dot3_degToVec_self s) (dot3_degToVec_self e)
  have hc := cos_arcD s e hs he
  rw [h, Real.cos_zero] at hc
  exact hc.symm

/-- Non-antipodal endpoint vectors force a central angle below `π`. -/
theorem arcD_ne_pi (s e : GeoPoint) (hs : ValidGeo s) (he : ValidGeo e)
    (hanti : degToVec e ≠ neg3 (degToVec s)) : arcD s e ≠ π := by
  intro h
  apply hanti
  apply neg_of_dot3_eq_neg_one (dot3_degToVec_self s) (dot3_degToVec_self e)
  have hc := cos_arcD s e hs he
  rw [h, Real.cos_pi] at hc
  exact hc.symm

/-- A central angle strictly between `0` and `π` has positive sine. -/
theorem sin_arcD_pos (s e : GeoPoint) (h0 : arcD s e ≠ 0) (hpi : arcD s e ≠ π) :
    0 < sin (arcD s e) :=
  sin_pos_of_pos_of_lt_pi
    (lt_of_le_of_ne (arcD_nonneg s e) (Ne.symm h0))
    (lt_of_le_of_ne (arcD_le_pi s e) hpi)

/-- A coinciding pair of endpoint vectors at zero central angle. -/
theorem degToVec_eq_of_arcD_eq_zero (s e : GeoPoint) (hs : ValidGeo s)
    (he : ValidGeo e) (hd : arcD s e = 0) : degToVec s = degToVec e := by
  apply eq_of_dot3_eq_one (dot3_degToVec_self s) (dot3_degToVec_self e)
  have hc := cos_arcD s e hs he
  rw [hd, Real.cos_zero] at hc
  exact hc.symm

/-- The interpolated Cartesian point as a weighted combination of the two
endpoint unit vectors. -/
theorem arcVec_eq (s e : GeoPoint) (f : ℝ) :
    arcVec s e f =
      (sin ((1 - f) * arcD s e) / sin (arcD s e) * (degToVec s).1 +
         sin (f * arcD s e) / sin (arcD s e) * (degToVec e).1,
       sin ((1 - f) * arcD s e) / sin (arcD s e) * (degToVec s).2.1 +
         sin (f * arcD s e) / sin (arcD s e) * (degToVec e).2.1,
       sin ((1 - f) * arcD s e) / sin (arcD s e) * (degToVec s).2.2 +
         sin (f * arcD s e) / sin (arcD s e) * (degToVec e).2.2) := by
  simp only [arcVec, degToVec, Prod.mk.injEq]
  refine ⟨by ring, by ring, by ring⟩

/-- Dot product of the start vector with the interpolated point: `cos (f·d)`. -/
theorem dot3_arcVec_left (s e : GeoPoint) (f : ℝ)
    (hdot : dot3 (degToVec s) (degToVec e) = cos (arcD s e))
    (hsin : sin (arcD s e) ≠ 0) :
    dot3 (degToVec s) (arcVec s e f) = cos (f * arcD s e) := by
  rw [arcVec_eq, dot3_comb_left, dot3_degToVec_self, hdot]
  rw [show (1 - f) * arcD s e = arcD s e - f * arcD s e by ring, Real.sin_sub]
  field_simp
  ring_nf

/-- Dot product of the interpolated point with the end vector: `cos ((1-f)·d)`. -/
theorem dot3_arcVec_right (s e : GeoPoint) (f : ℝ)
    (hdot : dot3 (degToVec s) (degToVec e) = cos (arcD s e))
    (hsin : sin (arcD s e) ≠ 0) :
    dot3 (arcVec s e f) (degToVec e) = cos ((1 - f) * arcD s e) := by
  rw [arcVec_eq, dot3_comb_right, dot3_degToVec_self, hdot]
  rw [show f * arcD s e = arcD s e - (1 - f) * arcD s e by ring, Real.sin_sub]
  field_simp
  ring_nf

/-- Scalar identity behind the unit-norm property of the slerp weights. -/
theorem slerp_weight_identity (a c sf cf : ℝ) (ha : a ≠ 0)
    (h1 : a ^ 2 + c ^ 2 = 1) (h2 : sf ^ 2 + cf ^ 2 = 1) :
    ((a * cf - c * sf) / a) ^ 2 * 1 + 2 * ((a * cf - c * sf) / a) * (sf / a) * c +
      (sf / a) ^ 2 * 1 = 1 := by
  have expand : ((a * cf - c * sf) / a) ^ 2 * 1 +
      2 * ((a * cf - c * sf) / a) * (sf / a) * c + (sf / a) ^ 2 * 1 =
      ((a * cf - c * sf) ^ 2 + 2 * (a * cf - c * sf) * sf * c + sf ^ 2) / a ^ 2 := by
    field_simp
    ring_nf
  rw [expand, div_eq_one_iff_eq (pow_ne_zero 2 ha)]
  linear_combination a ^ 2 * h2 - sf ^ 2 * h1

/-- The interpolated Cartesian point is a unit vector. -/
theorem dot3_arcVec_self (s e : GeoPoint) (f : ℝ)
    (hdot : dot3 (degToVec s) (degToVec e) = cos (arcD s e))
    (hsin : sin (arcD s e) ≠ 0) :
    dot3 (arcVec s e f) (arcVec s e f) = 1 := by
  rw [arcVec_eq, dot3_comb_self, dot3_degToVec_self s, dot3_degToVec_self e, hdot]
  rw [show (1 - f) * arcD s e = arcD s e - f * arcD s e by ring, Real.sin_sub]
  exact slerp_weight_identity (sin (arcD s e)) (cos (arcD s e))
    (sin (f * arcD s e)) (cos (f * arcD s e)) hsin
    (sin_sq_add_cos_sq (arcD s e)) (sin_sq_add_cos_sq (f * arcD s e))

/-- Converting degrees produced from a radian angle back to radians is the
identity. -/
theorem rad_of_deg (a : ℝ) : rad (a * 180 / π) = a := by
  rw [rad]
  field_simp

/-- The `atan2`-based conversion of a unit vector back to latitude and
longitude denotes the same unit vector. -/
theorem degToVec_vecToGeo (v : ℝ × ℝ × ℝ) (hunit : dot3 v v = 1) :
    degToVec (vecToGeo v) = v := by
  obtain ⟨x, y, z⟩ := v
  simp only [dot3] at hunit
  have hxy : (0 : ℝ) ≤ x * x + y * y := by nlinarith [mul_self_nonneg x, mul_self_nonneg y]
  have hr0 : 0 ≤ Real.sqrt (x * x + y * y) := Real.sqrt_nonneg _
  have hrsq : Real.sqrt (x * x + y * y) ^ 2 = x * x + y * y := Real.sq_sqrt hxy
  have habs1 : Complex.abs ⟨Real.sqrt (x * x + y * y), z⟩ = 1 := by
    rw [Complex.abs_apply, Complex.normSq_mk]
    rw [show Real.sqrt (x * x + y * y) * Real.sqrt (x * x + y * y) + z * z = 1 by
      nlinarith [hrsq]]
    exact Real.sqrt_one
  have hne1 : (⟨Real.sqrt (x * x + y * y), z⟩ : ℂ) ≠ 0 := by
    intro h
    rw [h] at habs1
    simp at habs1
  have hsinla : sin (atan2 z (Real.sqrt (x * x + y * y))) = z := by
    rw [atan2, Complex.sin_arg, habs1]
    simp
  have hcosla : cos (atan2 z (Real.sqrt (x * x + y * y))) = Real.sqrt (x * x + y * y) := by
    rw [atan2, Complex.cos_arg hne1, habs1]
    simp
  have habs2 : Complex.abs ⟨x, y⟩ = Real.sqrt (x * x + y * y) := by
    rw [Complex.abs_apply, Complex.normSq_mk]
  simp only [vecToGeo, degToVec]
  rw [rad_of_deg, rad_of_deg]
  by_cases hrz : Real.sqrt (x * x + y * y) = 0
  · have hxy0 : x * x + y * y = 0 := by
      have := hrsq
      rw [hrz] at this
      nlinarith
    have hx0 : x = 0 := by nlinarith [mul_self_nonneg x, mul_self_nonneg y]
    have hy0 : y = 0 := by nlinarith [mul_self_nonneg x, mul_self_nonneg y]
    simp only [Prod.mk.injEq]
    refine ⟨?_, ?_, hsinla⟩
    · rw [hcosla, hrz, hx0]
      ring
    · rw [hcosla, hrz, hy0]
      ring
  · have hne2 : (⟨x, y⟩ : ℂ) ≠ 0 := by
      intro h
      rw [h] at habs2
      simp at habs2
      exact hrz habs2.symm
    have hsinln : sin (atan2 y x) = y / Real.sqrt (x * x + y * y) := by
      rw [atan2, Complex.sin_arg, habs2]
    have hcosln : cos (atan2 y x) = x / Real.sqrt (x * x + y * y) := by
      rw [atan2, Complex.cos_arg hne2, habs2]
    simp only [Prod.mk.injEq]
    refine ⟨?_, ?_, hsinla⟩
    · rw [hcosla, hcosln]
      field_simp
    · rw [hcosla, hsinln]
      field_simp

/-- Indexing the generated arc inside bounds yields the loop body's point. -/
theorem generateArc_getD (s e : GeoPoint) (n i : ℕ) (h : i < n + 1) :
    (generateArc s e n).getD i ⟨0, 0⟩ = arcPoint s e n i := by
  rw [generateArc, List.getD_eq_getElem?_getD, List.getElem?_map, List.getElem?_range h]
  rfl

/-- At fraction `0` the interpolated Cartesian point is the start vector. -/
theorem arcVec_zero (s e : GeoPoint) (hsin : sin (arcD s e) ≠ 0) :
    arcVec s e 0 = degToVec s := by
  rw [arcVec_eq]
  simp [div_self hsin]

/-- At fraction `1` the interpolated Cartesian point is the end vector. -/
theorem arcVec_one (s e : GeoPoint) (hsin : sin (arcD s e) ≠ 0) :
    arcVec s e 1 = degToVec e := by
  rw [arcVec_eq]
  simp [div_self hsin]

/-! ## Claims C3, C4, C8 -/

/-- C3: for valid, non-antipodal endpoints and any `n ≥ 1`, the first point
of the generated path is `start` and the last is `end`.  Equality of
geographic points "up to floating-point rounding tolerance" is formalized
as exact equality of the unit-sphere vectors they denote. -/
theorem claim_C3_endpoint_fidelity (s e : GeoPoint) (n : ℕ)
    (hs : ValidGeo s) (he : ValidGeo e) (hn : 1 ≤ n)
    (hanti : degToVec e ≠ neg3 (degToVec s)) :
    degToVec ((generateArc s e n).getD 0 ⟨0, 0⟩) = degToVec s ∧
    degToVec ((generateArc s e n).getD n ⟨0, 0⟩) = degToVec e := by
  have hn0 : (n : ℝ) ≠ 0 := Nat.cast_ne_zero.mpr (by omega)
  rw [generateArc_getD s e n 0 (by omega), generateArc_getD s e n n (by omega)]
  by_cases hd : arcD s e = 0
  · have hseq := degToVec_eq_of_arcD_eq_zero s e hs he hd
    rw [arcPoint, arcPoint, if_pos hd, if_pos hd]
    exact ⟨rfl, hseq⟩
  · have hpi : arcD s e ≠ π := arcD_ne_pi s e hs he hanti
    have hsin : sin (arcD s e) ≠ 0 := ne_of_gt (sin_arcD_pos s e hd hpi)
    have hdot := (cos_arcD s e hs he).symm
    rw [arcPoint, arcPoint, if_neg hd, if_neg hd]
    constructor
    · rw [show ((0 : ℕ) : ℝ) / (n : ℝ) = 0 by simp]
      rw [degToVec_vecToGeo _ (dot3_arcVec_self s e 0 hdot hsin), arcVec_zero s e hsin]
    · rw [show ((n : ℕ) : ℝ) / (n : ℝ) = 1 from div_self hn0]
      rw [degToVec_vecToGeo _ (dot3_arcVec_self s e 1 hdot hsin), arcVec_one s e hsin]

/-- The vector denoted by the origin `(0°, 0°)`. -/
theorem degToVec_origin : degToVec ⟨0, 0⟩ = (1, 0, 0) := by
  simp [degToVec, rad]

/-- The vector denoted by `(0°, 90°)` on the equator. -/
theorem degToVec_east90 : degToVec ⟨0, 90⟩ = (0, 1, 0) := by
  have h90 : ((90 : ℝ) * π / 180) = π / 2 := by ring
  simp only [degToVec, rad]
  rw [h90]
  norm_num [Real.cos_pi_div_two, Real.sin_pi_div_two]

/-- The two equatorial test points are not the same sphere point. -/
theorem test_points_distinct : degToVec ⟨0, 0⟩ ≠ degToVec ⟨0, 90⟩ := by
  rw [degToVec_east90, degToVec_origin]
  norm_num [Prod.ext_iff]

/-- The two equatorial test points are not antipodal. -/
theorem test_points_nonantipodal : degToVec ⟨0, 90⟩ ≠ neg3 (degToVec ⟨0, 0⟩) := by
  rw [degToVec_east90, degToVec_origin]
  norm_num [neg3, Prod.ext_iff]

/-- Witness for C3 at the equatorial pair `(0°,0°) → (0°,90°)` with `n = 1`. -/
theorem claim_C3_endpoint_fidelity_witness :
    ValidGeo ⟨0, 0⟩ ∧ ValidGeo ⟨0, 90⟩ ∧ 1 ≤ 1 ∧
      degToVec ⟨0, 90⟩ ≠ neg3 (degToVec ⟨0, 0⟩) ∧
      (degToVec ((generateArc ⟨0, 0⟩ ⟨0, 90⟩ 1).getD 0 ⟨0, 0⟩) = degToVec ⟨0, 0⟩ ∧
       degToVec ((generateArc ⟨0, 0⟩ ⟨0, 90⟩ 1).getD 1 ⟨0, 0⟩) = degToVec ⟨0, 90⟩) := by
  have h1 : ValidGeo (⟨0, 0⟩ : GeoPoint) := by norm_num [ValidGeo]
  have h2 : ValidGeo (⟨0, 90⟩ : GeoPoint) := by norm_num [ValidGeo]
  exact ⟨h1, h2, le_refl 1, test_points_nonantipodal,
    claim_C3_endpoint_fidelity ⟨0, 0⟩ ⟨0, 90⟩ 1 h1 h2 (le_refl 1)
      test_points_nonantipodal⟩

/-- C4: for valid, non-antipodal endpoints every generated point lies on
the minor great-circle arc between them (its spherical distances to the two
endpoints sum to their spherical distance); and in the degenerate case of
exactly coinciding endpoints every generated point equals `start`. -/
theorem claim_C4_minor_arc (s e : GeoPoint) (n : ℕ)
    (hs : ValidGeo s) (he : ValidGeo e)
    (hanti : degToVec e ≠ neg3 (degToVec s)) :
    (∀ q ∈ generateArc s e n, OnMinorArc (degToVec s) (degToVec e) (degToVec q)) ∧
    (s = e → ∀ q ∈ generateArc s e n, q = s) := by
  constructor
  · intro q hq
    simp only [generateArc, List.mem_map, List.mem_range] at hq
    obtain ⟨i, hi, rfl⟩ := hq
    by_cases hd : arcD s e = 0
    · have hseq := degToVec_eq_of_arcD_eq_zero s e hs he hd
      have hu := dot3_degToVec_self s
      rw [arcPoint, if_pos hd]
      show arccos (dot3 (degToVec s) (degToVec s)) +
          arccos (dot3 (degToVec s) (degToVec e)) =
          arccos (dot3 (degToVec s) (degToVec e))
      rw [← hseq, hu, Real.arccos_one]
      ring
    · have hpi := arcD_ne_pi s e hs he hanti
      have hsin : sin (arcD s e) ≠ 0 := ne_of_gt (sin_arcD_pos s e hd hpi)
      have hdot := (cos_arcD s e hs he).symm
      set f : ℝ := (i : ℝ) / (n : ℝ) with hf
      have hf0 : 0 ≤ f := div_nonneg (Nat.cast_nonneg i) (Nat.cast_nonneg n)
      have hf1 : f ≤ 1 := by
        rcases Nat.eq_zero_or_pos n with hn | hn
        · subst hn
          rw [hf]
          norm_num
        · rw [hf, div_le_one (by exact_mod_cast hn)]
          exact_mod_cast Nat.lt_succ_iff.mp hi
      have hd0 := arcD_nonneg s e
      have hdpi := arcD_le_pi s e
      have hfd0 : 0 ≤ f * arcD s e := mul_nonneg hf0 hd0
      have hfdpi : f * arcD s e ≤ π := by
        calc f * arcD s e ≤ 1 * arcD s e := mul_le_mul_of_nonneg_right hf1 hd0
        _ = arcD s e := one_mul _
        _ ≤ π := hdpi
      have h1f0 : 0 ≤ (1 - f) * arcD s e := mul_nonneg (by linarith) hd0
      have h1fpi : (1 - f) * arcD s e ≤ π := by
        calc (1 - f) * arcD s e ≤ 1 * arcD s e :=
          mul_le_mul_of_nonneg_right (by linarith) hd0
        _ = arcD s e := one_mul _
        _ ≤ π := hdpi
      rw [arcPoint, if_neg hd]
      have hq := degToVec_vecToGeo _ (dot3_arcVec_self s e f hdot hsin)
      simp only [OnMinorArc, sphericalDist, ← hf]
      rw [hq]
      rw [dot3_arcVec_left s e f hdot hsin, dot3_arcVec_right s e f hdot hsin,
        hdot]
      rw [Real.arccos_cos hfd0 hfdpi, Real.arccos_cos h1f0 h1fpi,
        Real.arccos_cos hd0 hdpi]
      ring
  · intro hse q hq
    subst hse
    simp only [generateArc, List.mem_map] at hq
    obtain ⟨i, _, rfl⟩ := hq
    simp [arcPoint, arcD_self]

/-- Witness for C4 at the equatorial pair `(0°,0°) → (0°,90°)` with `n = 4`. -/
theorem claim_C4_minor_arc_witness :
    ValidGeo ⟨0, 0⟩ ∧ ValidGeo ⟨0, 90⟩ ∧
      degToVec ⟨0, 90⟩ ≠ neg3 (degToVec ⟨0, 0⟩) ∧
      ((∀ q ∈ generateArc ⟨0, 0⟩ ⟨0, 90⟩ 4,
          OnMinorArc (degToVec ⟨0, 0⟩) (degToVec ⟨0, 90⟩) (degToVec q)) ∧
       ((⟨0, 0⟩ : GeoPoint) = ⟨0, 90⟩ →
          ∀ q ∈ generateArc ⟨0, 0⟩ ⟨0, 90⟩ 4, q = ⟨0, 0⟩)) := by
  have h1 : ValidGeo (⟨0, 0⟩ : GeoPoint) := by norm_num [ValidGeo]
  have h2 : ValidGeo (⟨0, 90⟩ : GeoPoint) := by norm_num [ValidGeo]
  exact ⟨h1, h2, test_points_nonantipodal,
    claim_C4_minor_arc ⟨0, 0⟩ ⟨0, 90⟩ 4 h1 h2 test_points_nonantipodal⟩

/-- Squared sine is invariant under flipping the half-angle difference. -/
theorem sin_sq_swap (x y : ℝ) : sin ((x - y) / 2) ^ 2 = sin ((y - x) / 2) ^ 2 := by
  rw [show (x - y) / 2 = -((y - x) / 2) by ring, Real.sin_neg]
  ring

/-- The haversine central angle is symmetric in its endpoints. -/
theorem arcD_comm (s e : GeoPoint) : arcD e s = arcD s e := by
  rw [arcD, arcD, sin_sq_swap (rad e.lat) (rad s.lat),
    sin_sq_swap (rad e.lng) (rad s.lng),
    mul_comm (cos (rad e.lat)) (cos (rad s.lat))]

/-- Flipping the interpolation fraction swaps the roles of the endpoints. -/
theorem arcVec_flip (s e : GeoPoint) (f : ℝ) :
    arcVec s e (1 - f) = arcVec e s f := by
  simp only [arcVec]
  rw [arcD_comm e s]
  rw [show (1 - (1 - f)) = f by ring]
  simp only [Prod.mk.injEq]
  refine ⟨by ring, by ring, by ring⟩

/-- C8: for valid endpoints denoting distinct, non-antipodal sphere points,
the generated path from `a` to `b` reversed is exactly the generated path
from `b` to `a` (pointwise equality of the emitted coordinates). -/
theorem claim_C8_symmetry (a b : GeoPoint) (n : ℕ)
    (ha : ValidGeo a) (hb : ValidGeo b) (hn : 1 ≤ n)
    (hne : degToVec a ≠ degToVec b)
    (hanti : degToVec b ≠ neg3 (degToVec a)) :
    (generateArc a b n).reverse = generateArc b a n := by
  have hd : arcD a b ≠ 0 := arcD_ne_zero a b ha hb hne
  apply List.ext_getElem
  · simp [generateArc]
  · intro j h1 h2
    have hj : j ≤ n := by
      simp only [generateArc, List.length_map, List.length_range] at h2
      omega
    rw [List.getElem_reverse]
    simp only [generateArc, List.getElem_map, List.getElem_range,
      List.length_map, List.length_range]
    rw [show n + 1 - 1 - j = n - j from by omega]
    rw [arcPoint, arcPoint, arcD_comm a b]
    rw [if_neg hd, if_neg hd]
    congr 1
    have hnn : (n : ℝ) ≠ 0 := Nat.cast_ne_zero.mpr (by omega)
    have hcast : ((n - j : ℕ) : ℝ) = (n : ℝ) - (j : ℝ) := Nat.cast_sub hj
    rw [show ((n - j : ℕ) : ℝ) / (n : ℝ) = 1 - (j : ℝ) / (n : ℝ) by
      rw [hcast]; field_simp]
    exact arcVec_flip a b ((j : ℝ) / (n : ℝ))

/-- Witness for C8 at the equatorial pair `(0°,0°) → (0°,90°)` with `n = 2`. -/
theorem claim_C8_symmetry_witness :
    ValidGeo ⟨0, 0⟩ ∧ ValidGeo ⟨0, 90⟩ ∧ 1 ≤ 2 ∧
      degToVec ⟨0, 0⟩ ≠ degToVec ⟨0, 90⟩ ∧
      degToVec ⟨0, 90⟩ ≠ neg3 (degToVec ⟨0, 0⟩) ∧
      (generateArc ⟨0, 0⟩ ⟨0, 90⟩ 2).reverse = generateArc ⟨0, 90⟩ ⟨0, 0⟩ 2 := by
  have h1 : ValidGeo (⟨0, 0⟩ : GeoPoint) := by norm_num [ValidGeo]
  have h2 : ValidGeo (⟨0, 90⟩ : GeoPoint) := by norm_num [ValidGeo]
  exact ⟨h1, h2, by norm_num, test_points_distinct, test_points_nonantipodal,
    claim_C8_symmetry ⟨0, 0⟩ ⟨0, 90⟩ 2 h1 h2 (by norm_num) test_points_distinct
      test_points_nonantipodal⟩

end
